import Mathlib

/-!
Verification of the binance_data_collection repository: a shallow embedding
of its data-acquisition and caching pipeline (src/utils.py, src/storage.py,
src/data.py, main.py) together with proofs about the embedded operations.

Modelling conventions:
* `datetime` values and epoch times are integers counting seconds; one day is
  86400 seconds and one minute is 60 seconds.
* pandas DataFrames holding OHLCV candles indexed by timestamp become lists of
  `Candle` ordered as the frame's rows; prices and volumes become rationals.
* The filesystem becomes an explicit association-list state; `to_parquet`
  and `read_parquet` become writes and lookups in that state.
* Remote API results are supplied as explicit oracle arguments; a Python
  function that catches its own exceptions and returns `None` becomes an
  `Option`-valued oracle, and an exception that escapes becomes `Except.error`.
-/

namespace BinanceData

/-- One daily OHLCV candle: the row type of the cached DataFrames built in
`DataManager._process_klines` (timestamp index plus float columns `open`,
`high`, `low`, `close`, `volume`, `quote_volume` and integer `trades`). -/
structure Candle where
  ts : Int
  op : ℚ
  hi : ℚ
  lo : ℚ
  cl : ℚ
  vol : ℚ
  qvol : ℚ
  trades : Int
deriving DecidableEq, Repr

/-- A per-symbol historical series: the DataFrame's rows in frame order. -/
abbrev DF := List Candle

/-- Seconds in one day (`timedelta(days=1)` / `pd.Timedelta(days=1)`). -/
def DAY : Int := 86400

/-- Seconds in one minute (`timedelta(minutes=1)`). -/
def MINUTE : Int := 60

/-! ### config.py constants used by the claims -/

def MAX_CALLS_PER_MINUTE : Nat := 1200
def QUOTE_CURRENCY : String := "USDT"
def MIN_VOLUME : ℚ := 1000000
def MAX_SYMBOLS : Nat := 300
def DATA_VERSION : String := "1.0"
def DAYS_REQUIRED : Nat := 360

/-! ## RateLimiter (src/utils.py)

State: `calls_per_minute` plus the deque `call_times` (front = oldest entry,
bounded to the most recent `calls_per_minute` entries by `maxlen`). -/

structure RateLimiter where
  calls_per_minute : Nat
  call_times : List Int
deriving DecidableEq, Repr

/-- The `while self.call_times and now - self.call_times[0] > timedelta(minutes=1):
self.call_times.popleft()` loop: drop leading entries strictly older than one
minute, stopping at the first that is not. -/
def pruneOld (now : Int) : List Int → List Int
  | [] => []
  | t :: ts => if now - t > MINUTE then pruneOld now ts else t :: ts

/-- The wait the limiter imposes: when the pruned deque has reached the
ceiling, wait until the oldest recorded timestamp turns one minute old
(`wait_time = call_times[0] + 60s - now`, slept only when positive, hence the
`max · 0`). The `[]` branch is unreachable for a positive ceiling. -/
def waitAmount (n : Nat) (now : Int) (pruned : List Int) : Int :=
  match pruned with
  | [] => 0
  | t :: _ => if pruned.length ≥ n then max (t + MINUTE - now) 0 else 0

/-- Model of `deque(maxlen=n).append`: append on the right, evicting from the left
when the bound is exceeded. -/
def dequeAppend (n : Nat) (ts : List Int) (t : Int) : List Int :=
  let l := ts ++ [t]
  l.drop (l.length - n)

/-- One pass through the `wrapper` closure of `RateLimiter.__call__` for a
call entering at time `now` whose wrapped function raises iff `fails`.
Returns the limiter state after the call and the real time at which the
wrapped function executes (`now` plus any sleep). The deque mutations happen
in program order: pruning always runs; the append of `now` — the entry time,
not the post-sleep time — runs only when the wrapped function returns. -/
def rlCall (rl : RateLimiter) (now : Int) (fails : Bool) : RateLimiter × Int :=
  let pruned := pruneOld now rl.call_times
  let execT := now + waitAmount rl.calls_per_minute now pruned
  if fails then
    (⟨rl.calls_per_minute, pruned⟩, execT)
  else
    (⟨rl.calls_per_minute, dequeAppend rl.calls_per_minute pruned now⟩, execT)

/-- Successful call through the limiter (the wrapped function returns). -/
def rlStepOk (rl : RateLimiter) (now : Int) : RateLimiter × Int :=
  rlCall rl now false

/-- A caller issuing `k` successful calls in rapid succession starting at
time `t`: each call is issued the instant the previous one returns (a sleep
inside the limiter advances the clock; the calls themselves are instant).
Returns the list of real execution times and the final limiter state. -/
def rapidRun (rl : RateLimiter) (t : Int) : Nat → List Int × RateLimiter
  | 0 => ([], rl)
  | k + 1 =>
      let s := rlStepOk rl t
      let r := rapidRun s.1 s.2 k
      (s.2 :: r.1, r.2)

/-- A caller issuing successful calls at the given entry times (meaningful
when no call is delayed, so entry times are not pushed back). -/
def runAt (rl : RateLimiter) : List Int → List Int × RateLimiter
  | [] => ([], rl)
  | t :: ts =>
      let s := rlStepOk rl t
      let r := runAt s.1 ts
      (s.2 :: r.1, r.2)

/-- Number of execution times falling in the trailing one-minute window
ending at `T` (half-open: strictly after `T - 60`, up to and including `T`). -/
def countWindow (T : Int) (execs : List Int) : Nat :=
  execs.countP (fun e => decide (T - MINUTE < e ∧ e ≤ T))

/-! ## Retry wrapper (`DataManager._api_call`, src/data.py)

`_api_call` runs `for attempt in range(max_retries): try: return func(...)
except: if attempt == max_retries - 1: raise; time.sleep(2 ** attempt)`.
The behaviour of `func` at each attempt is an oracle `f : Nat → Except E A`.
The model returns the loop's outcome together with the list of backoff
sleeps performed, in order. `Except.ok none` is the implicit `None` returned
when the loop body never runs (only possible for a zero retry ceiling). -/

def retryFrom {E A : Type} (f : Nat → Except E A) :
    Nat → Nat → Except E (Option A) × List Int
  | _, 0 => (Except.ok none, [])
  | attempt, rem + 1 =>
      match f attempt with
      | Except.ok a => (Except.ok (some a), [])
      | Except.error e =>
          match rem with
          | 0 => (Except.error e, [])
          | _ + 1 =>
              let r := retryFrom f (attempt + 1) rem
              (r.1, ((2 : Int) ^ attempt) :: r.2)

/-- The retry loop of `DataManager._api_call` with its fixed `max_retries = 3`. -/
def apiCallRetry {E A : Type} (f : Nat → Except E A) :
    Except E (Option A) × List Int :=
  retryFrom f 0 3

/-- Events observable during one invocation of the decorated `_api_call`:
the rate limiter's throttling check, an invocation of the underlying
operation, and a backoff sleep. -/
inductive ApiEv where
  | throttle
  | attempt (i : Nat)
  | backoff (secs : Int)
deriving DecidableEq, Repr

/-- Event trace of the retry loop body: attempt `i`, then on failure either
stop (final attempt re-raises) or sleep `2 ^ i` and continue. `fails i` says
whether the underlying operation raises at attempt `i`. -/
def retryEvents (fails : Nat → Bool) : Nat → Nat → List ApiEv
  | _, 0 => []
  | i, rem + 1 =>
      ApiEv.attempt i ::
        (if fails i then
          match rem with
          | 0 => []
          | _ + 1 => ApiEv.backoff ((2 : Int) ^ i) :: retryEvents fails (i + 1) rem
        else [])

/-- Event trace of one invocation of `_api_call` as decorated by
`@rate_limit`: the limiter's check runs once, before the retry loop of the
wrapped body (`max_retries = 3`). -/
def apiCallEvents (fails : Nat → Bool) : List ApiEv :=
  ApiEv.throttle :: retryEvents fails 0 3

def isThrottle : ApiEv → Bool
  | ApiEv.throttle => true
  | _ => false

def isAttempt : ApiEv → Bool
  | ApiEv.attempt _ => true
  | _ => false

/-! ## Merge of cached and fetched series (src/data.py, lines 85-87)

`df = pd.concat([df, new_data]); df = df[~df.index.duplicated(keep='last')];
df.sort_index(inplace=True)`. -/

/-- Model of `df[~df.index.duplicated(keep='last')]`: keep, in order, exactly the rows
that are the last occurrence of their timestamp. -/
def dedupKeepLast : DF → DF
  | [] => []
  | r :: rs =>
      if rs.any (fun s => s.ts == r.ts) then dedupKeepLast rs
      else r :: dedupKeepLast rs

/-- The ordering `sort_index` sorts by: ascending timestamp (non-strict, as
a sort comparator must be; the merge's dedup step makes the result strict). -/
def tsLe (a b : Candle) : Prop := a.ts ≤ b.ts

instance : DecidableRel tsLe := fun a b => Int.decLe a.ts b.ts

instance : IsTotal Candle tsLe := ⟨fun a b => Int.le_total a.ts b.ts⟩

instance : IsTrans Candle tsLe := ⟨fun _ _ _ h1 h2 => le_trans h1 h2⟩

/-- Model of `df.sort_index()`: stable sort of the rows, ascending by timestamp. -/
def sortByTs (df : DF) : DF := List.insertionSort tsLe df

/-- The incremental-update merge: concatenate old and new rows, drop
duplicate timestamps keeping the last occurrence, sort ascending. -/
def mergeKeepLast (old newData : DF) : DF :=
  sortByTs (dedupKeepLast (old ++ newData))

/-- Timestamps of a series, in row order. -/
def tsOf (df : DF) : List Int := df.map Candle.ts

/-! ## Filesystem and storage (src/storage.py)

Files are an association list from filename to stored artifact. An artifact
is the frame a `pd.read_parquet` of that file yields, together with that
frame's `attrs` dict. Crucially, pandas' `to_parquet`/`read_parquet` does
not serialize `DataFrame.attrs`: the metadata dict `store` sets on the
in-memory frame never reaches the file, so every artifact the program
actually writes carries `attrs = none`. -/

/-- The metadata dict `store` builds for `df.attrs`: format version, write
timestamp (ISO-8601 in the source, modelled as the epoch second it encodes),
row count, content checksum. It exists only on the in-memory frame inside
`store`; it is never persisted (see `DataStorage.store`). -/
structure Meta where
  version : String
  timestamp : Int
  rows : Nat
  checksum : Int
deriving DecidableEq, Repr

/-- A stored DataFrame together with the `attrs` metadata a load of it would
carry; `none` models a frame whose attrs dict has no write-timestamp entry —
which is what every parquet round-trip produces, since `to_parquet` drops
`DataFrame.attrs`. -/
structure Artifact where
  df : DF
  attrs : Option Meta
deriving DecidableEq, Repr

/-- The on-disk state: the cache directory and the backup directory, each a
map from filename to artifact. -/
structure FS where
  cache : List (String × Artifact)
  backups : List (String × Artifact)
deriving DecidableEq, Repr

/-- Lookup in an association list (first binding wins, as later writes
replace in place). -/
def alookup {α : Type} (k : String) : List (String × α) → Option α
  | [] => none
  | p :: ps => if p.1 == k then some p.2 else alookup k ps

/-- Write a binding: replace the existing binding for the key, else append. -/
def awrite {α : Type} (k : String) (v : α) : List (String × α) → List (String × α)
  | [] => [(k, v)]
  | p :: ps => if p.1 == k then (k, v) :: ps else p :: awrite k v ps

/-- Remove a binding (the source of a `Path.rename` move). -/
def aremove {α : Type} (k : String) (l : List (String × α)) : List (String × α) :=
  l.filter (fun p => ¬ p.1 == k)

/-- The checksum `pd.util.hash_pandas_object(df).sum()` is an opaque library
hash computed for the in-memory `attrs` dict inside `store`; no claim
depends on its value (and it is never persisted), so it is modelled as a
plain row aggregate. -/
def pdChecksum (df : DF) : Int :=
  (df.map (fun c => c.ts + c.trades)).sum

/-- Model of `DataStorage.store(symbol, df)`: if the cache file for
`{symbol}_v{version}.parquet` exists, rename it into the backup directory as
`{symbol}_v{version}_{int(time.time())}.parquet`; set `df.attrs` to the
metadata dict (an in-memory mutation only); write the frame with
`df.to_parquet(filepath)`. Because `to_parquet` does not serialize
`DataFrame.attrs`, the written artifact holds the rows alone — its loaded
attrs dict is empty (`none`), with the `Meta` the source builds
(`⟨version, nowEpoch, df.length, pdChecksum df⟩`) discarded at the file
boundary. I/O failures are external and not modelled, so the boolean is
always `true` here. `nowEpoch` is the write time (both the backup suffix and
the in-memory metadata timestamp read the clock at this write). -/
def DataStorage.store (fs : FS) (version : String) (nowEpoch : Int)
    (symbol : String) (df : DF) : FS × Bool :=
  let filename := symbol ++ "_v" ++ version ++ ".parquet"
  let fs1 :=
    match alookup filename fs.cache with
    | some art =>
        let backupName := symbol ++ "_v" ++ version ++ "_" ++ toString nowEpoch ++ ".parquet"
        FS.mk (aremove filename fs.cache) (awrite backupName art fs.backups)
    | none => fs
  (FS.mk (awrite filename (⟨df, none⟩ : Artifact) fs1.cache) fs1.backups, true)

/-- Model of `DataStorage.load(symbol)`: read `{symbol}_v{version}.parquet` from the
cache directory, absent result if no such file. -/
def DataStorage.load (fs : FS) (version : String) (symbol : String) : Option Artifact :=
  alookup (symbol ++ "_v" ++ version ++ ".parquet") fs.cache

/-- Model of `DataStorage.needs_update(symbol)`: true when the load is absent, when
the artifact carries no write-timestamp metadata, or when the write
timestamp is more than one day old. -/
def DataStorage.needsUpdate (fs : FS) (version : String) (now : Int)
    (symbol : String) : Bool :=
  match DataStorage.load fs version symbol with
  | none => true
  | some art =>
      match art.attrs with
      | none => true
      | some m => decide (now - m.timestamp > DAY)

/-! ## DataManager.get_historical_data (src/data.py)

State: the in-memory per-symbol cache (`self.cache`) plus the filesystem.
Fetch results are oracles: `_fetch_missing_data` and `_fetch_full_history`
both catch their own exceptions and return `None`, so each is an
`Option DF`. An empty cached frame makes `df.index[-1]` raise `IndexError`,
which escapes this method, hence the `Except` result. -/

structure DM where
  mem : List (String × DF)
  fs : FS
deriving DecidableEq, Repr

/-- The tail of `get_historical_data` (from `# Fetch full history` on):
reached both when no cache file exists and when a stale cache's incremental
fetch returned no rows. On data, write `{symbol}.parquet` (a plain
`df.to_parquet`, no attrs, no backup) and fill the memory cache; on `None`,
return `None` with nothing written. -/
def fullFetchPath (dm : DM) (symbol : String) (fetchFull : Option DF) :
    Except String (Option DF) × DM :=
  match fetchFull with
  | some df =>
      (Except.ok (some df),
        DM.mk (awrite symbol df dm.mem)
          (FS.mk (awrite (symbol ++ ".parquet") ⟨df, none⟩ dm.fs.cache) dm.fs.backups))
  | none => (Except.ok none, dm)

/-- Model of `DataManager.get_historical_data(symbol)` at clock time `now`.
In order: memory-cache hit; disk-cache hit — fresh (last timestamp within
one day) returns it, stale triggers the incremental fetch, and when that
returns rows the merged frame is written straight back over
`{symbol}.parquet` with `df.to_parquet` (no backup) — ; otherwise fall
through to the full-history fetch. -/
def getHistoricalData (dm : DM) (now : Int) (symbol : String)
    (fetchMissing : Int → Option DF) (fetchFull : Option DF) :
    Except String (Option DF) × DM :=
  match alookup symbol dm.mem with
  | some df => (Except.ok (some df), dm)
  | none =>
    let cacheFile := symbol ++ ".parquet"
    match alookup cacheFile dm.fs.cache with
    | some art =>
        match art.df.getLast? with
        | none => (Except.error "IndexError", dm)
        | some lastRow =>
            if now - lastRow.ts < DAY then
              (Except.ok (some art.df), DM.mk (awrite symbol art.df dm.mem) dm.fs)
            else
              match fetchMissing lastRow.ts with
              | some newData =>
                  let df2 := mergeKeepLast art.df newData
                  (Except.ok (some df2),
                    DM.mk (awrite symbol df2 dm.mem)
                      (FS.mk (awrite cacheFile ⟨df2, none⟩ dm.fs.cache) dm.fs.backups))
              | none => fullFetchPath dm symbol fetchFull
    | none => fullFetchPath dm symbol fetchFull

/-! ## DataManager.get_tradeable_symbols (src/data.py) -/

/-- The fields of one `info['symbols']` entry that the filter reads. -/
structure SymbolInfo where
  symbol : String
  status : String
  quoteAsset : String
deriving DecidableEq, Repr

/-- The fields of one 24h ticker entry that the filter reads
(`quoteVolume` is parsed with `float(...)`). -/
structure Ticker where
  symbol : String
  quoteVolume : ℚ
deriving DecidableEq, Repr

/-- Model of `ticker_data = {t['symbol']: t for t in tickers}`: a dict comprehension,
so a later entry for the same symbol overwrites an earlier one — lookup
scans from the right. -/
def tickerLookup (tickers : List Ticker) (s : String) : Option Ticker :=
  tickers.reverse.find? (fun t => t.symbol == s)

/-- Insert a string into a list sorted ascending (lexicographic `≤`). -/
def insertStr (s : String) : List String → List String
  | [] => [s]
  | x :: xs => if x ≤ s then x :: insertStr s xs else s :: x :: xs

/-- Python's `sorted` on strings: ascending lexicographic sort. -/
def sortStrs : List String → List String
  | [] => []
  | x :: xs => insertStr x (sortStrs xs)

/-- The `valid_symbols` accumulation loop: a symbol passes when its status
is `'TRADING'`, its quote asset is `'USDT'` (the source hardcodes the
literal), a ticker entry exists for it, and that ticker's quote volume is at
least `MIN_VOLUME`. -/
def validSymbols (info : List SymbolInfo) (tickers : List Ticker) : List String :=
  info.filterMap (fun sy =>
    if sy.status == "TRADING" ∧ sy.quoteAsset == "USDT" then
      match tickerLookup tickers sy.symbol with
      | some t => if t.quoteVolume ≥ MIN_VOLUME then some sy.symbol else none
      | none => none
    else none)

/-- The body of `get_tradeable_symbols` after both fetches succeeded:
`sorted(valid_symbols)[:config.MAX_SYMBOLS]`. -/
def getTradeableSymbolsOk (info : List SymbolInfo) (tickers : List Ticker) :
    List String :=
  (sortStrs (validSymbols info tickers)).take MAX_SYMBOLS

/-- Model of `get_tradeable_symbols` with its enclosing `try`/`except`: the two
`_api_call` fetches are oracles whose `Except.error` is an exception escaping
after retries; any such failure is caught and yields the empty list. -/
def getTradeableSymbols (infoRes : Except String (List SymbolInfo))
    (tickersRes : Except String (List Ticker)) : List String :=
  match infoRes, tickersRes with
  | Except.ok info, Except.ok tickers => getTradeableSymbolsOk info tickers
  | _, _ => []

/-- The selection `get_tradeable_symbols` is described as by the spec's algorithm section,
for the refinement check of the symbol filter: select symbols whose status
is TRADING, whose quote asset equals the configured quote currency, for
which a ticker entry exists with quote volume at least the configured
minimum; sort; truncate to the configured maximum count. -/
def specTradeableSymbols (info : List SymbolInfo) (tickers : List Ticker) :
    List String :=
  (sortStrs ((info.filter (fun sy =>
      sy.status == "TRADING" && sy.quoteAsset == QUOTE_CURRENCY &&
        match tickerLookup tickers sy.symbol with
        | some t => decide (t.quoteVolume ≥ MIN_VOLUME)
        | none => false)).map SymbolInfo.symbol)).take MAX_SYMBOLS

/-! ### Concrete fixtures for the cache-update scenarios -/

/-- A cached daily candle with timestamp 0 (epoch midnight). -/
def c0 : Candle := ⟨0, 1, 2, 1, 2, 5, 5, 10⟩

/-- A freshly fetched candle one day after `c0`. -/
def c1 : Candle := ⟨86400, 2, 3, 2, 3, 7, 7, 20⟩

/-- A DataManager whose disk cache holds a one-row series for ABCUSDT whose
last timestamp is three days before the clock time used below. -/
def dm0 : DM := ⟨[], ⟨[("ABCUSDT.parquet", ⟨[c0], none⟩)], []⟩⟩

/-- A stale cached row sharing `c1`'s timestamp, for the merge witness. -/
def cOld : Candle := ⟨86400, 9, 9, 9, 9, 9, 9, 9⟩

/-- A second freshly fetched candle, for the merge witness. -/
def c2 : Candle := ⟨172800, 3, 4, 3, 4, 8, 8, 30⟩

/-! ## Theorems -/

/-- Claim C5: The retry wrapper `_api_call`: an operation failing on attempts 0
and 1 and succeeding on attempt 2 yields the success value after backoff
sleeps of `2 ^ 0 = 1` and `2 ^ 1 = 2` seconds; an operation failing on all
three attempts re-raises the final failure (after the same two sleeps). -/
theorem apiCall_retry_backoff {E A : Type} (f : Nat → Except E A) :
    (∀ (e0 e1 : E) (a : A), f 0 = Except.error e0 → f 1 = Except.error e1 →
      f 2 = Except.ok a →
      apiCallRetry f = (Except.ok (some a), [1, 2])) ∧
    (∀ (e0 e1 e2 : E), f 0 = Except.error e0 → f 1 = Except.error e1 →
      f 2 = Except.error e2 →
      apiCallRetry f = (Except.error e2, [1, 2])) := by
  constructor
  · intro e0 e1 a h0 h1 h2
    simp [apiCallRetry, retryFrom, h0, h1, h2]
  · intro e0 e1 e2 h0 h1 h2
    simp [apiCallRetry, retryFrom, h0, h1, h2]

/-- Witness for `apiCall_retry_backoff` at a concrete operation that fails
twice, then at one that always fails. -/
theorem apiCall_retry_backoff_witness :
    apiCallRetry (fun n => if n < 2 then Except.error "boom" else Except.ok (42 : Nat)) =
      (Except.ok (some 42), [1, 2]) ∧
    apiCallRetry (fun n => (Except.error (toString n) : Except String Nat)) =
      (Except.error "2", [1, 2]) :=
  ⟨(apiCall_retry_backoff _).1 "boom" "boom" 42 rfl rfl rfl,
   (apiCall_retry_backoff _).2 "0" "1" "2" rfl rfl rfl⟩

/-- The retry-loop trace `retryEvents` never emits a throttle event: the limiter check lives
outside the retry loop. -/
theorem retryEvents_no_throttle (fails : Nat → Bool) :
    ∀ r i, (retryEvents fails i r).countP isThrottle = 0 := by
  intro r
  induction r with
  | zero => intro i; rfl
  | succ n ih =>
      intro i
      cases n with
      | zero => cases hf : fails i <;> simp [retryEvents, hf, List.countP_cons, isThrottle]
      | succ m =>
          cases hf : fails i
          · simp [retryEvents, hf, List.countP_cons, isThrottle]
          · have hrec := ih (i + 1)
            simp [retryEvents, hf, List.countP_cons, isThrottle] at hrec ⊢
            exact hrec

/-- Claim C3 counterexample: An operation that fails once and then succeeds
makes two attempts inside one `_api_call` invocation, but the trace contains
only one throttling check: the retried attempt does not pass through the
RateLimiter again, refuting the claim that every individual attempt does. -/
theorem apiCall_throttle_counterexample :
    (apiCallEvents (fun n => n == 0)).countP isThrottle = 1 ∧
    (apiCallEvents (fun n => n == 0)).countP isAttempt = 2 ∧
    ¬ ((apiCallEvents (fun n => n == 0)).countP isAttempt ≤
        (apiCallEvents (fun n => n == 0)).countP isThrottle) := by
  refine ⟨rfl, rfl, ?_⟩
  decide

/-- Claim C3 amended: The RateLimiter's throttling check runs exactly once per
`_api_call` invocation — as the very first event, before the first attempt —
regardless of how many retries follow; retried attempts do not re-pass
through the limiter. -/
theorem apiCall_throttle_once (fails : Nat → Bool) :
    (apiCallEvents fails).head? = some ApiEv.throttle ∧
    (apiCallEvents fails).countP isThrottle = 1 := by
  refine ⟨rfl, ?_⟩
  simp [apiCallEvents, List.countP_cons, isThrottle, retryEvents_no_throttle]

/-- Claim C10 counterexample: A failing wrapped call does change the limiter's
recorded call-time state: with a recorded timestamp 100 seconds old, the
pruning loop (which runs before the wrapped function) drops it even though
the call then raises. -/
theorem rlCall_fail_counterexample :
    (rlCall ⟨1, [0]⟩ 100 true).1.call_times = [] ∧
    (rlCall ⟨1, [0]⟩ 100 true).1 ≠ ⟨1, [0]⟩ := by
  refine ⟨rfl, ?_⟩
  decide

/-- Claim C10 amended: For a wrapped call that raises, no timestamp is appended
(the exception propagates before the append), so failed calls never count
toward the per-minute ceiling: the state after the call is exactly the pruned
old state — a sublist of the old deque — and any entry that was dropped was
strictly older than one minute. -/
theorem rlCall_fail_state (rl : RateLimiter) (now : Int) :
    (rlCall rl now true).1.call_times = pruneOld now rl.call_times ∧
    (rlCall rl now true).1.call_times.Sublist rl.call_times ∧
    (∀ t ∈ rl.call_times, t ∉ (rlCall rl now true).1.call_times →
      now - t > MINUTE) := by
  have hsub : ∀ l, (pruneOld now l).Sublist l := by
    intro l
    induction l with
    | nil => exact List.Sublist.refl _
    | cons t ts ih =>
        by_cases h : now - t > MINUTE
        · simpa [pruneOld, h] using ih.cons t
        · simp [pruneOld, h]
  have hstale : ∀ l, ∀ t ∈ l, t ∉ pruneOld now l → now - t > MINUTE := by
    intro l
    induction l with
    | nil => intro t ht; cases ht
    | cons s ss ih =>
        intro t ht hnot
        by_cases h : now - s > MINUTE
        · rcases List.mem_cons.mp ht with rfl | hmem
          · exact h
          · exact ih t hmem (by simpa [pruneOld, h] using hnot)
        · exact absurd (by simpa [pruneOld, h] using ht) hnot
  exact ⟨rfl, hsub rl.call_times, fun t ht hnot => hstale rl.call_times t ht hnot⟩

/-- Witness for `rlCall_fail_state` at a concrete limiter and time. -/
theorem rlCall_fail_state_witness :
    (rlCall ⟨1, [0]⟩ 100 true).1.call_times = pruneOld 100 [0] ∧
    (100 : Int) - 0 > MINUTE :=
  ⟨(rlCall_fail_state ⟨1, [0]⟩ 100).1,
   (rlCall_fail_state ⟨1, [0]⟩ 100).2.2 0 (by decide) (by decide)⟩

/-- Claim C9: `get_tradeable_symbols` is fail-soft: whenever either the
exchange-info fetch or the ticker fetch raises (after retries are
exhausted), the caller receives the empty symbol list, not an exception. -/
theorem getTradeableSymbols_failsoft (infoRes : Except String (List SymbolInfo))
    (tickersRes : Except String (List Ticker))
    (h : (∃ e, infoRes = Except.error e) ∨ (∃ e, tickersRes = Except.error e)) :
    getTradeableSymbols infoRes tickersRes = [] := by
  cases infoRes with
  | error e => rfl
  | ok info =>
      cases tickersRes with
      | error e => rfl
      | ok tickers =>
          rcases h with ⟨e, he⟩ | ⟨e, he⟩ <;> cases he

/-- Witness for `getTradeableSymbols_failsoft`: a failed info fetch. -/
theorem getTradeableSymbols_failsoft_witness :
    getTradeableSymbols (Except.error "HTTP 500") (Except.ok []) = [] :=
  getTradeableSymbols_failsoft _ _ (Or.inl ⟨"HTTP 500", rfl⟩)

/-- Writing a binding makes it the one the next lookup finds. -/
theorem alookup_awrite_self {α : Type} (k : String) (v : α) :
    ∀ l, alookup k (awrite k v l) = some v := by
  intro l
  induction l with
  | nil => simp [awrite, alookup]
  | cons p ps ih =>
      by_cases h : p.1 == k
      · simp [awrite, alookup, h]
      · simp [awrite, alookup, h, ih]

/-- Claim C7 (evaluated at the failing input): the claim's characterisation
of `needs_update` is the code's branching, and the spec's `store` contract
attaches the write-timestamp metadata "alongside the series in the same
artifact" — but pandas' `to_parquet` does not serialize `DataFrame.attrs`,
so the metadata `store` sets never reaches the file. Consequently
`needs_update` is `true` immediately after a `store` call timestamped now —
after every `store`, in fact — where the claim requires `false`. Proved in
general and at the concrete failing input (store ABCUSDT at time 0, ask
`needs_update` at the same instant). -/
theorem needsUpdate_after_store_bug :
    (∀ fs version now symbol df,
      DataStorage.needsUpdate (DataStorage.store fs version now symbol df).1
        version now symbol = true) ∧
    DataStorage.needsUpdate
        ((DataStorage.store ⟨[], []⟩ DATA_VERSION 0 "ABCUSDT"
          [⟨0, 1, 1, 1, 1, 1, 1, 1⟩]).1) DATA_VERSION 0 "ABCUSDT" = true ∧
    ¬ (DataStorage.needsUpdate
        ((DataStorage.store ⟨[], []⟩ DATA_VERSION 0 "ABCUSDT"
          [⟨0, 1, 1, 1, 1, 1, 1, 1⟩]).1) DATA_VERSION 0 "ABCUSDT" = false) := by
  refine ⟨?_, by decide, by decide⟩
  intro fs version now symbol df
  simp only [DataStorage.needsUpdate, DataStorage.store, DataStorage.load]
  cases h : alookup (symbol ++ "_v" ++ version ++ ".parquet") fs.cache <;>
    simp [h, alookup_awrite_self]

/-- Claim C1 counterexample: Disk cache present and stale (last timestamp three
days old), the incremental fetch returns no rows: `get_historical_data` does
not return the unmodified cached series — it falls through to the
full-history fetch, and when that also returns no rows the caller gets
`None`, not the cached one-row series. -/
theorem getHistoricalData_emptyFetch_counterexample :
    (getHistoricalData dm0 (3 * DAY) "ABCUSDT" (fun _ => none) none).1 =
      Except.ok none ∧
    (Except.ok none : Except String (Option DF)) ≠ Except.ok (some [c0]) := by
  refine ⟨rfl, ?_⟩
  simp

/-- Claim C1 amended: When the cached series is stale and the incremental fetch
returns no rows, `get_historical_data` falls through to the full-history
fetch path instead of returning the unmodified cached series: its result is
exactly the full-fetch path's (so with a `None` full fetch the caller gets
`None` and the state is untouched). For a symbol with no cache at all, a full
fetch returning no rows yields `None` as claimed. -/
theorem getHistoricalData_emptyFetch :
    (∀ (dm : DM) (now : Int) (symbol : String) (fm : Int → Option DF)
        (ff : Option DF) (art : Artifact) (lastRow : Candle),
      alookup symbol dm.mem = none →
      alookup (symbol ++ ".parquet") dm.fs.cache = some art →
      art.df.getLast? = some lastRow →
      now - lastRow.ts ≥ DAY →
      fm lastRow.ts = none →
      getHistoricalData dm now symbol fm ff = fullFetchPath dm symbol ff) ∧
    (∀ (dm : DM) (now : Int) (symbol : String) (fm : Int → Option DF),
      alookup symbol dm.mem = none →
      alookup (symbol ++ ".parquet") dm.fs.cache = none →
      getHistoricalData dm now symbol fm none = (Except.ok none, dm)) := by
  constructor
  · intro dm now symbol fm ff art lastRow hmem hdisk hlast hstale hfm
    simp only [getHistoricalData, hmem, hdisk, hlast, hfm,
      if_neg (not_lt.mpr hstale)]
  · intro dm now symbol fm hmem hdisk
    simp only [getHistoricalData, hmem, hdisk, fullFetchPath]

/-- Witness for `getHistoricalData_emptyFetch` at the concrete stale cache
and at a concrete empty DataManager. -/
theorem getHistoricalData_emptyFetch_witness :
    getHistoricalData dm0 (3 * DAY) "ABCUSDT" (fun _ => none) none =
      fullFetchPath dm0 "ABCUSDT" none ∧
    getHistoricalData ⟨[], ⟨[], []⟩⟩ 0 "XYZUSDT" (fun _ => none) none =
      (Except.ok none, ⟨[], ⟨[], []⟩⟩) :=
  ⟨getHistoricalData_emptyFetch.1 dm0 (3 * DAY) "ABCUSDT" (fun _ => none) none
      ⟨[c0], none⟩ c0 rfl (by decide) rfl (by decide) rfl,
   getHistoricalData_emptyFetch.2 ⟨[], ⟨[], []⟩⟩ 0 "XYZUSDT" (fun _ => none)
      rfl rfl⟩

/-- Claim C2: The incremental-merge write-back inside `get_historical_data`
silently overwrites the existing cache file: the backup directory is left
unchanged and the cache binding for `{symbol}.parquet` is replaced in place
(`df.to_parquet(cache_file)` is called directly, bypassing
`DataStorage.store`). By contrast `DataStorage.store` — the component the
spec assigns exclusive ownership of the on-disk layout, instantiated by
`DataManager` but never called — does move the previous file to the backup
location first. Evaluated here at the concrete failing input `dm0`
(stale one-row ABCUSDT cache, incremental fetch returning one new candle). -/
theorem updatePath_no_backup :
    (getHistoricalData dm0 (3 * DAY) "ABCUSDT" (fun _ => some [c1]) none).2.fs.backups
        = dm0.fs.backups ∧
    (getHistoricalData dm0 (3 * DAY) "ABCUSDT" (fun _ => some [c1]) none).2.fs.cache
        = [("ABCUSDT.parquet", ⟨[c0, c1], none⟩)] ∧
    alookup "ABCUSDT.parquet"
        (getHistoricalData dm0 (3 * DAY) "ABCUSDT" (fun _ => some [c1]) none).2.fs.cache
        ≠ some ⟨[c0], none⟩ ∧
    (DataStorage.store ⟨[("ABCUSDT_v1.0.parquet", ⟨[c0], none⟩)], []⟩
        "1.0" (3 * DAY) "ABCUSDT" [c0, c1]).1.backups
        = [("ABCUSDT_v1.0_259200.parquet", ⟨[c0], none⟩)] := by
  refine ⟨rfl, by decide, by decide, by decide⟩

/-! ### Merge invariants -/

/-- Dropping duplicated-timestamp rows keeps a sublist of the input. -/
theorem dedupKeepLast_sublist : ∀ l : DF, (dedupKeepLast l).Sublist l := by
  intro l
  induction l with
  | nil => exact List.Sublist.refl _
  | cons r rs ih =>
      by_cases h : (rs.any (fun s => s.ts == r.ts)) = true
      · simpa [dedupKeepLast, h] using ih.cons r
      · simpa [dedupKeepLast, h] using ih.cons₂ r

/-- Dropping duplicated-timestamp rows loses no timestamp. -/
theorem mem_tsOf_dedup : ∀ (l : DF) (t : Int),
    t ∈ tsOf (dedupKeepLast l) ↔ t ∈ tsOf l := by
  intro l
  induction l with
  | nil => intro t; simp [dedupKeepLast]
  | cons r rs ih =>
      intro t
      have hcons : tsOf (r :: rs) = r.ts :: tsOf rs := rfl
      constructor
      · intro ht
        exact (((dedupKeepLast_sublist (r :: rs)).map Candle.ts).mem ht)
      · intro ht
        rw [hcons] at ht
        rcases List.mem_cons.mp ht with rfl | hmem
        · by_cases h : (rs.any (fun s => s.ts == r.ts)) = true
          · rcases List.any_eq_true.mp h with ⟨s, hs, hseq⟩
            have hmem2 : s.ts ∈ tsOf rs := List.mem_map.mpr ⟨s, hs, rfl⟩
            have hmem3 := (ih s.ts).mpr hmem2
            rw [show dedupKeepLast (r :: rs) = dedupKeepLast rs from by
              simp [dedupKeepLast, h]]
            rwa [eq_of_beq hseq] at hmem3
          · rw [show dedupKeepLast (r :: rs) = r :: dedupKeepLast rs from by
              simp [dedupKeepLast, h]]
            exact List.mem_cons_self _ _
        · have hmem2 := (ih t).mpr hmem
          by_cases h : (rs.any (fun s => s.ts == r.ts)) = true
          · rwa [show dedupKeepLast (r :: rs) = dedupKeepLast rs from by
              simp [dedupKeepLast, h]]
          · rw [show dedupKeepLast (r :: rs) = r :: dedupKeepLast rs from by
              simp [dedupKeepLast, h]]
            exact List.mem_cons_of_mem _ hmem2

/-- After dropping duplicated-timestamp rows, timestamps are unique. -/
theorem dedup_ts_nodup : ∀ l : DF, (tsOf (dedupKeepLast l)).Nodup := by
  intro l
  induction l with
  | nil => simp [dedupKeepLast, tsOf]
  | cons r rs ih =>
      by_cases h : (rs.any (fun s => s.ts == r.ts)) = true
      · simpa [dedupKeepLast, h] using ih
      · have hnot : r.ts ∉ tsOf (dedupKeepLast rs) := by
          intro hmem
          have hrs : r.ts ∈ tsOf rs := (mem_tsOf_dedup rs r.ts).mp hmem
          rcases List.mem_map.mp hrs with ⟨s, hs, hts⟩
          exact h (List.any_eq_true.mpr ⟨s, hs, beq_iff_eq.mpr hts⟩)
        rw [show dedupKeepLast (r :: rs) = r :: dedupKeepLast rs from by
          simp [dedupKeepLast, h]]
        exact List.nodup_cons.mpr ⟨hnot, ih⟩

/-- Keep-last semantics: a surviving row whose timestamp also occurs in the
newly fetched rows must itself come from the newly fetched rows (the old
occurrence was the one dropped). -/
theorem dedup_lastwins : ∀ (old newData : DF) (r : Candle),
    r ∈ dedupKeepLast (old ++ newData) → r.ts ∈ tsOf newData → r ∈ newData := by
  intro old
  induction old with
  | nil =>
      intro newData r hr _
      exact (dedupKeepLast_sublist newData).subset hr
  | cons o os ih =>
      intro newData r hr hts
      by_cases h : (((os ++ newData).any (fun s => s.ts == o.ts)) = true)
      · exact ih newData r (by simpa [dedupKeepLast, h] using hr) hts
      · have hr' : r = o ∨ r ∈ dedupKeepLast (os ++ newData) := by
          simpa [dedupKeepLast, h] using hr
        rcases hr' with rfl | hr'
        · exfalso
          rcases List.mem_map.mp hts with ⟨s, hs, hseq⟩
          exact h (List.any_eq_true.mpr
            ⟨s, List.mem_append.mpr (Or.inr hs), beq_iff_eq.mpr hseq⟩)
        · exact ih newData r hr' hts

/-- Claim C6: Merging a cached series with incrementally fetched rows
(`pd.concat`, drop duplicated timestamps keeping the last, `sort_index`)
yields strictly increasing, duplicate-free timestamps; the merged timestamps
are exactly those of the old and new data; and any merged row whose
timestamp occurs in the new data is itself a row of the new data — the new
value wins over the cached one. -/
theorem merge_sorted_unique_lastwins (old newData : DF) :
    List.Pairwise (fun a b : Candle => a.ts < b.ts) (mergeKeepLast old newData) ∧
    (∀ t : Int, t ∈ tsOf (mergeKeepLast old newData) ↔
      t ∈ tsOf old ∨ t ∈ tsOf newData) ∧
    (∀ r ∈ mergeKeepLast old newData, r.ts ∈ tsOf newData → r ∈ newData) := by
  have hperm : List.Perm (mergeKeepLast old newData)
      (dedupKeepLast (old ++ newData)) :=
    List.perm_insertionSort tsLe _
  have hsorted : List.Pairwise tsLe (mergeKeepLast old newData) :=
    List.sorted_insertionSort tsLe _
  have hnodup : (tsOf (mergeKeepLast old newData)).Nodup :=
    ((hperm.map Candle.ts).nodup_iff).mpr (dedup_ts_nodup (old ++ newData))
  refine ⟨?_, ?_, ?_⟩
  · have hne : List.Pairwise (fun a b : Candle => a.ts ≠ b.ts)
        (mergeKeepLast old newData) :=
      List.pairwise_map.mp hnodup
    exact (hsorted.and hne).imp (fun h => lt_of_le_of_ne h.1 h.2)
  · intro t
    have h1 : t ∈ tsOf (mergeKeepLast old newData) ↔
        t ∈ tsOf (dedupKeepLast (old ++ newData)) :=
      (hperm.map Candle.ts).mem_iff
    rw [h1, mem_tsOf_dedup]
    simp [tsOf]
  · intro r hr hts
    exact dedup_lastwins old newData r (hperm.mem_iff.mp hr) hts

/-- Witness for `merge_sorted_unique_lastwins`: cached rows at days 0 and 1,
fetched rows at days 1 and 2 — the shared day-1 timestamp survives and the
surviving row is the fetched one. -/
theorem merge_sorted_unique_lastwins_witness :
    (86400 : Int) ∈ tsOf (mergeKeepLast [c0, cOld] [c1, c2]) ∧
    c1 ∈ [c1, c2] :=
  ⟨(merge_sorted_unique_lastwins [c0, cOld] [c1, c2]).2.1 86400 |>.mpr
      (Or.inr (by decide)),
   (merge_sorted_unique_lastwins [c0, cOld] [c1, c2]).2.2 c1 (by decide) (by decide)⟩

/-- A `filterMap` whose function is a guarded projection is a `filter`
followed by a `map`. -/
theorem filterMap_guard {α β : Type} (p : α → Bool) (f : α → β) (g : α → Option β)
    (hg : ∀ x, g x = if p x then some (f x) else none) :
    ∀ l : List α, l.filterMap g = (l.filter p).map f := by
  intro l
  induction l with
  | nil => rfl
  | cons x xs ih =>
      by_cases h : p x = true
      · simp [List.filterMap_cons, List.filter_cons, hg, h, ih]
      · simp [List.filterMap_cons, List.filter_cons, hg, h, ih]

/-- Claim C8: With both fetches succeeding, `get_tradeable_symbols` returns
exactly the spec's selection: symbols with status TRADING whose quote asset
equals the configured quote currency (the source's hardcoded `'USDT'`
coincides with `QUOTE_CURRENCY`), that have a ticker entry with quote volume
at least the configured minimum — sorted lexicographically and truncated to
the configured maximum count. Concretely, a TRADING USDT pair with volume
2,000,000 is included while a BTC-quoted pair is excluded despite a far
larger volume. -/
theorem getTradeableSymbols_spec :
    (∀ (info : List SymbolInfo) (tickers : List Ticker),
      getTradeableSymbols (Except.ok info) (Except.ok tickers) =
        specTradeableSymbols info tickers) ∧
    getTradeableSymbols
        (Except.ok [⟨"ABCUSDT", "TRADING", "USDT"⟩, ⟨"XYZBTC", "TRADING", "BTC"⟩])
        (Except.ok [⟨"ABCUSDT", 2000000⟩, ⟨"XYZBTC", 50000000⟩]) =
      ["ABCUSDT"] := by
  constructor
  · intro info tickers
    show getTradeableSymbolsOk info tickers = specTradeableSymbols info tickers
    unfold getTradeableSymbolsOk specTradeableSymbols validSymbols
    rw [filterMap_guard
      (fun sy => sy.status == "TRADING" && sy.quoteAsset == QUOTE_CURRENCY &&
        match tickerLookup tickers sy.symbol with
        | some t => decide (t.quoteVolume ≥ MIN_VOLUME)
        | none => false)
      SymbolInfo.symbol]
    intro sy
    cases hst : (sy.status == "TRADING") <;>
      cases hq : (sy.quoteAsset == "USDT") <;>
        cases hl : tickerLookup tickers sy.symbol <;>
          simp [QUOTE_CURRENCY, hst, hq, hl]
  · decide

/-! ### RateLimiter window behaviour -/

/-- Pruning at the very instant the deque's entries were recorded removes
nothing. -/
theorem pruneOld_replicate (t0 : Int) (j : Nat) :
    pruneOld t0 (List.replicate j t0) = List.replicate j t0 := by
  cases j with
  | zero => rfl
  | succ m => simp [List.replicate_succ, pruneOld, MINUTE]

/-- Below the ceiling the limiter imposes no wait. -/
theorem waitAmount_short (N : Nat) (t0 : Int) (j : Nat) (h : j < N) :
    waitAmount N t0 (List.replicate j t0) = 0 := by
  cases j with
  | zero => rfl
  | succ m =>
      simp only [List.replicate_succ, waitAmount, List.length_cons,
        List.length_replicate, ge_iff_le]
      rw [if_neg (by omega)]

/-- Appending below the bound evicts nothing. -/
theorem dequeAppend_replicate (N : Nat) (t0 : Int) (j : Nat) (h : j + 1 ≤ N) :
    dequeAppend N (List.replicate j t0) t0 = List.replicate (j + 1) t0 := by
  simp only [dequeAppend]
  rw [← List.replicate_succ']
  simp [Nat.sub_eq_zero_of_le h]

/-- One successful limiter pass, written out on a literal state. -/
theorem rlStepOk_mk (N : Nat) (ts : List Int) (now : Int) :
    rlStepOk ⟨N, ts⟩ now =
      (⟨N, dequeAppend N (pruneOld now ts) now⟩,
       now + waitAmount N now (pruneOld now ts)) := rfl

/-- Rapid succession from a deque holding `j` copies of the entry time: with
`j + k = N`, the next `k` calls run undelayed at `t0` and the `(k+1)`-th is
delayed to exactly `t0 + 60`. -/
theorem rapid_run_aux (N : Nat) (t0 : Int) (hN : 1 ≤ N) :
    ∀ k j, j + k = N →
      (rapidRun ⟨N, List.replicate j t0⟩ t0 (k + 1)).1 =
        List.replicate k t0 ++ [t0 + MINUTE] := by
  intro k
  induction k with
  | zero =>
      intro j hj
      obtain ⟨m, rfl⟩ : ∃ m, j = m + 1 := ⟨j - 1, by omega⟩
      have hwait : waitAmount N t0 (List.replicate (m + 1) t0) = MINUTE := by
        simp only [List.replicate_succ, waitAmount, List.length_cons,
          List.length_replicate, ge_iff_le]
        rw [if_pos (by omega)]
        simp [MINUTE]
      simp [rapidRun, rlStepOk, rlCall, pruneOld_replicate, hwait]
  | succ n ih =>
      intro j hj
      have hjN : j < N := by omega
      have hstep :
          rlStepOk ⟨N, List.replicate j t0⟩ t0 =
            (⟨N, List.replicate (j + 1) t0⟩, t0) := by
        rw [rlStepOk_mk, pruneOld_replicate, waitAmount_short N t0 j hjN,
          dequeAppend_replicate N t0 j (by omega), add_zero]
      have hrec := ih (j + 1) (by omega)
      show (rlStepOk ⟨N, List.replicate j t0⟩ t0).2 ::
          (rapidRun (rlStepOk ⟨N, List.replicate j t0⟩ t0).1
            (rlStepOk ⟨N, List.replicate j t0⟩ t0).2 (n + 1)).1 =
        List.replicate (n + 1) t0 ++ [t0 + MINUTE]
      rw [hstep]
      show t0 :: (rapidRun ⟨N, List.replicate (j + 1) t0⟩ t0 (n + 1)).1 =
        List.replicate (n + 1) t0 ++ [t0 + MINUTE]
      rw [hrec, List.replicate_succ, List.cons_append]

/-- Entries all strictly older than one minute are fully pruned. -/
theorem pruneOld_all (now : Int) :
    ∀ l, (∀ x ∈ l, now - x > MINUTE) → pruneOld now l = [] := by
  intro l
  induction l with
  | nil => intro _; rfl
  | cons t ts ih =>
      intro h
      have ht := h t (List.mem_cons_self _ _)
      simp only [pruneOld, if_pos ht]
      exact ih (fun x hx => h x (List.mem_cons_of_mem _ hx))

/-- Calls spaced more than one minute apart are never delayed, whatever
stale-by-a-minute state the deque starts in. -/
theorem runAt_aux (N : Nat) (hN : 1 ≤ N) :
    ∀ (entries : List Int) (init : List Int),
      entries.Chain' (fun a b => a + MINUTE < b) →
      (∀ x ∈ init, ∀ u, entries.head? = some u → x + MINUTE < u) →
      (runAt ⟨N, init⟩ entries).1 = entries := by
  intro entries
  induction entries with
  | nil => intro init _ _; rfl
  | cons t ts ih =>
      intro init hchain hinit
      have hprune : pruneOld t init = [] :=
        pruneOld_all t init (fun x hx => by
          have := hinit x hx t rfl
          omega)
      have happend : dequeAppend N [] t = [t] := by
        simp [dequeAppend, Nat.sub_eq_zero_of_le hN]
      have hchain' := List.chain'_cons'.mp hchain
      have hrec := ih [t] hchain'.2 (fun x hx u hu => by
        rcases List.mem_singleton.mp hx with rfl
        exact hchain'.1 u (by simp [hu]))
      show (rlStepOk ⟨N, init⟩ t).2 ::
          (runAt (rlStepOk ⟨N, init⟩ t).1 ts).1 = t :: ts
      rw [rlStepOk_mk, hprune]
      show (t + 0) :: (runAt ⟨N, dequeAppend N [] t⟩ ts).1 = t :: ts
      rw [happend, hrec, add_zero]

/-- Claim C4 counterexample: With a ceiling of `N = 1`, three calls in rapid
succession execute at real times 0, 60 and 60: two wrapped calls fall inside
the trailing 60-second window ending at time 60, exceeding the claimed
ceiling. The wrapper records each call's entry time rather than its
post-wait execution time, so the second call (which slept until 60) is on
record as having happened at 0, and the third is admitted immediately. -/
theorem rl_window_counterexample :
    (rapidRun ⟨1, []⟩ 0 3).1 = [0, 60, 60] ∧
    countWindow 60 ((rapidRun ⟨1, []⟩ 0 3).1) = 2 ∧
    ¬ (countWindow 60 ((rapidRun ⟨1, []⟩ 0 3).1) ≤ 1) := by
  refine ⟨by decide, by decide, by decide⟩

/-- Claim C4 amended: Issuing `N + 1` calls in rapid succession from a fresh
limiter leaves the first `N` undelayed and delays the `(N+1)`-th until
exactly 60 seconds after the first call's recorded timestamp; and calls each
spaced more than 60 seconds apart are never delayed. (The claim's further
trailing-window bound fails: see `rl_window_counterexample`.) -/
theorem rl_throttle_spec :
    (∀ (N : Nat) (t0 : Int), 1 ≤ N →
      (rapidRun ⟨N, []⟩ t0 (N + 1)).1 = List.replicate N t0 ++ [t0 + MINUTE]) ∧
    (∀ (N : Nat) (entries : List Int), 1 ≤ N →
      entries.Chain' (fun a b => a + MINUTE < b) →
      (runAt ⟨N, []⟩ entries).1 = entries) := by
  constructor
  · intro N t0 hN
    simpa using rapid_run_aux N t0 hN N 0 (by omega)
  · intro N entries hN hchain
    exact runAt_aux N hN entries [] hchain (by intro x hx; cases hx)

/-- Witness for `rl_throttle_spec`: ceiling 2 with three rapid calls, and
ceiling 1 with three calls spaced 70 seconds apart. -/
theorem rl_throttle_spec_witness :
    (rapidRun ⟨2, []⟩ 0 3).1 = List.replicate 2 0 ++ [0 + MINUTE] ∧
    (runAt ⟨1, []⟩ [0, 70, 141]).1 = [0, 70, 141] :=
  ⟨rl_throttle_spec.1 2 0 (by decide),
   rl_throttle_spec.2 1 [0, 70, 141] (by decide)
     (by norm_num [List.chain'_cons, List.chain'_singleton, MINUTE])⟩

end BinanceData
